import Mathlib

/-!
Verification of the `minigrep` library (`src/lib.rs`).

Strings are modelled as `List Char` (Rust `&str` / `String` as sequences of
Unicode scalar values).  The standard-library routines the code calls
(`str::lines`, `str::contains`, `str::to_lowercase`, `env::var`,
`fs::read_to_string`, `println!`) are embedded explicitly:

* `strLines` embeds `str::lines`: lines are split at `'\n'`; a `'\r'`
  immediately preceding a `'\n'` is stripped together with it; a final
  fragment without a trailing terminator still counts as a line, and a
  trailing terminator does not produce an extra empty line.
* `strContains h n` embeds `h.contains(n)` for string needles: `n` occurs
  in `h` as a contiguous substring.
* `toLowercase` embeds `str::to_lowercase`: every character is mapped
  through the character lowercase table, except that a capital sigma `'Σ'`
  in word-final position (preceded, ignoring case-ignorable characters, by
  a cased character and not so followed by one) is mapped to `'ς'` instead
  of `'σ'`.  The character table `charToLowercase` and the `Cased` /
  `CaseIgnorable` predicates are represented on a fragment of the Unicode
  repertoire (ASCII, the Greek letters exercised below, and `'İ'`, whose
  lowercase form is two characters); on the code points listed they agree
  with the Unicode data the Rust standard library compiles in, and all
  other characters are left fixed.
* File reading and the environment are passed to `run` / `Config.build` as
  explicit parameters; `run` returns the propagated read error together
  with the list of lines it prints.
-/

namespace Minigrep

/-- Character-level lowercase table (the context-free part of
`char::to_lowercase`), represented on a fragment of Unicode: ASCII
uppercase letters map down by 32, `'İ'` (U+0130) maps to the two-character
sequence `i` followed by combining dot above (U+0307), the Greek capitals
used in this development map to their lowercase forms, and every other
character is left unchanged. -/
def charToLowercase (c : Char) : List Char :=
  if 'A' ≤ c ∧ c ≤ 'Z' then [Char.ofNat (c.toNat + 32)]
  else if c = 'İ' then ['i', Char.ofNat 0x0307]
  else if c = 'Σ' then ['σ']
  else if c = 'Ό' then ['ό']
  else if c = 'Ο' then ['ο']
  else [c]

/-- The Unicode `Cased` property, represented on the fragment used here:
ASCII letters and the Greek letters appearing in this development. -/
def Cased (c : Char) : Bool :=
  if ('A' ≤ c ∧ c ≤ 'Z') ∨ ('a' ≤ c ∧ c ≤ 'z') then true
  else (['Σ', 'σ', 'ς', 'Ό', 'ό', 'Ο', 'ο', 'İ'] : List Char).contains c

/-- The Unicode `Case_Ignorable` property, represented on a fragment:
apostrophe (U+0027), middle dot (U+00B7) and combining dot above (U+0307). -/
def CaseIgnorable (c : Char) : Bool :=
  ([Char.ofNat 0x27, Char.ofNat 0xB7, Char.ofNat 0x0307] : List Char).contains c

/-- Skip `Case_Ignorable` characters; `true` iff the first remaining
character is `Cased` (the helper `case_ignorable_then_cased` of
`str::to_lowercase` in the Rust standard library). -/
def caseIgnorableThenCased : List Char → Bool
  | [] => false
  | c :: rest => if CaseIgnorable c then caseIgnorableThenCased rest else Cased c

/-- Worker for `toLowercase`.  The first argument is the reversed prefix of
the characters already consumed (the `from[..i].chars().rev()` view used by
`map_uppercase_sigma`). -/
def toLowercaseAux : List Char → List Char → List Char
  | _, [] => []
  | pre, c :: rest =>
    (if c = 'Σ' then
      if caseIgnorableThenCased pre && !caseIgnorableThenCased rest then ['ς'] else ['σ']
    else charToLowercase c) ++ toLowercaseAux (c :: pre) rest

/-- Embedding of Rust `str::to_lowercase`: character-wise lowercasing,
except that a capital sigma in word-final position becomes `'ς'`. -/
def toLowercase (s : List Char) : List Char :=
  toLowercaseAux [] s

/-- Remove one trailing `'\r'`, if present (the CRLF half of the line
terminator stripping done by `str::lines`). -/
def stripTrailingCr (l : List Char) : List Char :=
  if l.getLast? = some '\r' then l.dropLast else l

/-- Worker for `strLines`; the first argument accumulates the current line
in reverse. -/
def linesAux : List Char → List Char → List (List Char)
  | acc, [] => if acc.isEmpty then [] else [acc.reverse]
  | acc, c :: rest =>
    if c = '\n' then stripTrailingCr acc.reverse :: linesAux [] rest
    else linesAux (c :: acc) rest

/-- Embedding of Rust `str::lines`: split at `'\n'`, strip a `'\r'` that
immediately precedes a `'\n'`, keep a final unterminated fragment, and do
not emit an empty line for a trailing terminator. -/
def strLines (s : List Char) : List (List Char) :=
  linesAux [] s

/-- Embedding of Rust `str::contains` with a string needle: the needle is a
prefix of some suffix of the haystack. -/
def strContains (haystack needle : List Char) : Bool :=
  haystack.tails.any fun t => needle.isPrefixOf t

/-- Embedding of `minigrep::search` (src/lib.rs lines 36–41): keep, in
order, the lines of `contents` that contain `query`. -/
def search (query contents : List Char) : List (List Char) :=
  (strLines contents).filter fun line => strContains line query

/-- Embedding of `minigrep::search_case_insensitive` (src/lib.rs lines
59–68): lowercase the query once, keep the lines whose lowercased text
contains it; the pushed lines are the original ones. -/
def search_case_insensitive (query contents : List Char) : List (List Char) :=
  let q := toLowercase query
  (strLines contents).filter fun line => strContains (toLowercase line) q

/-- Embedding of `minigrep::Config` (src/lib.rs lines 71–76). -/
structure Config where
  query : List Char
  file_path : List Char
  ignore_case : Bool
deriving DecidableEq, Repr

/-- Embedding of `Config::build` (src/lib.rs lines 79–90).  The argument
iterator is modelled as the list of the strings it yields, and
`env::var("IGNORE_CASE")` as an `Option` holding the variable's value when
it is set: `ignore_case` is exactly `Option.isSome` of it.  The first
argument is skipped, the next two become query and file path, and any
further arguments are ignored. -/
def Config.build (args : List (List Char)) (ignoreCaseEnv : Option (List Char)) :
    Except String Config :=
  match args.drop 1 with
  | [] => .error "Didn't get a query string"
  | [_q] => .error "Didn't get a file path"
  | q :: p :: _ => .ok { query := q, file_path := p, ignore_case := ignoreCaseEnv.isSome }

/-- Embedding of `minigrep::run` (src/lib.rs lines 5–19).
`fs::read_to_string` is modelled by the explicit parameter `readToString`
(failing with an error of an arbitrary type `ε`, propagated unchanged by
the `?` operator), and printing by returning the list of lines written to
standard output alongside the `Result`. -/
def run (config : Config) (readToString : List Char → Except ε (List Char)) :
    Except ε Unit × List (List Char) :=
  match readToString config.file_path with
  | .error e => (.error e, [])
  | .ok contents =>
    (.ok (),
      if config.ignore_case then search_case_insensitive config.query contents
      else search config.query contents)

/-- Test fixture: the file contents of the `case_sensitive` unit test of
src/lib.rs. -/
def poemA : List Char :=
  "Rust:\nsafe, fast, productive.\nPick three.\nDuct tape.".toList

/-- Test fixture: the file contents of the `case_insensitive` unit test of
src/lib.rs. -/
def poemB : List Char :=
  "Rust:\nsafe, fast, productive.\nPick three.\nTrust me.".toList

/-- Sanity check: the `case_sensitive` unit test of src/lib.rs. -/
theorem search_unit_test :
    search "duct".toList poemA = ["safe, fast, productive.".toList] := by decide

/-- Sanity check: the `case_insensitive` unit test of src/lib.rs. -/
theorem search_ci_unit_test :
    search_case_insensitive "rUsT".toList poemB
      = ["Rust:".toList, "Trust me.".toList] := by decide

/-- Sanity check: the final-sigma rule, on the example from the Rust
documentation of `str::to_lowercase`. -/
theorem toLowercase_final_sigma_example :
    toLowercase "ΌΣΟΣ".toList = "όσος".toList := by decide

/-- `strContains` decides substring containment. -/
theorem strContains_iff {h n : List Char} : strContains h n = true ↔ n <:+: h := by
  constructor
  · intro hc
    obtain ⟨t, ht, hp⟩ := List.any_eq_true.mp hc
    have hpre := List.isPrefixOf_iff_prefix.mp hp
    exact List.infix_iff_prefix_suffix.mpr ⟨t, hpre, (List.mem_tails _ _).mp ht⟩
  · intro hi
    obtain ⟨t, hpre, hsuf⟩ := List.infix_iff_prefix_suffix.mp hi
    exact List.any_eq_true.mpr
      ⟨t, (List.mem_tails _ _).mpr hsuf, List.isPrefixOf_iff_prefix.mpr hpre⟩

/-- Splitting off the first line: a `'\n'` after a newline-free block `a`
closes the line `a` (with a trailing `'\r'` stripped). -/
theorem linesAux_split (b : List Char) :
    ∀ (a acc : List Char), ('\n') ∉ a →
      linesAux acc (a ++ '\n' :: b) = stripTrailingCr (acc.reverse ++ a) :: linesAux [] b
  | [], acc, _ => by simp [linesAux]
  | c :: a', acc, h => by
    simp only [List.mem_cons, not_or] at h
    have hc : ¬ c = '\n' := fun e => h.1 e.symm
    simp only [List.cons_append, linesAux, List.append_eq, if_neg hc]
    rw [linesAux_split b a' (c :: acc) h.2]
    simp [List.append_assoc]

/-- A nonempty newline-free tail is returned as a single final line,
without any stripping. -/
theorem linesAux_last :
    ∀ (a acc : List Char), ('\n') ∉ a → acc.reverse ++ a ≠ [] →
      linesAux acc a = [acc.reverse ++ a]
  | [], acc, _, hne => by
    have hacc : acc.isEmpty = false := by
      cases acc with
      | nil => simp at hne
      | cons _ _ => rfl
    simp [linesAux, hacc]
  | c :: a', acc, h, _ => by
    simp only [List.mem_cons, not_or] at h
    have hc : ¬ c = '\n' := fun e => h.1 e.symm
    simp only [linesAux, if_neg hc]
    rw [linesAux_last a' (c :: acc) h.2 (by simp)]
    simp [List.append_assoc]

/-- On sigma-free input, `toLowercase` is the character-wise map through
the lowercase table, independently of the consumed prefix. -/
theorem toLowercaseAux_of_no_sigma :
    ∀ (s pre : List Char), ('Σ') ∉ s →
      toLowercaseAux pre s = s.flatMap charToLowercase
  | [], _, _ => rfl
  | c :: s', pre, h => by
    simp only [List.mem_cons, not_or] at h
    have hc : ¬ c = 'Σ' := fun e => h.1 e.symm
    simp only [toLowercaseAux, List.flatMap_cons, if_neg hc]
    rw [toLowercaseAux_of_no_sigma s' (c :: pre) h.2]

/-- A character-wise string transformation preserves contiguous-substring
containment. -/
theorem flatMap_preserves_substring (f : Char → List Char) {q l : List Char}
    (h : q <:+: l) : q.flatMap f <:+: l.flatMap f := by
  obtain ⟨s, t, rfl⟩ := h
  exact ⟨s.flatMap f, t.flatMap f, by simp [List.flatMap_append]⟩

/-- Filtering the same list by a pointwise weaker predicate yields a
superlist (as a sublist relation). -/
theorem filter_sublist_filter_of_imp {α : Type} {p q : α → Bool} :
    ∀ l : List α, (∀ a ∈ l, p a = true → q a = true) → (l.filter p).Sublist (l.filter q)
  | [], _ => List.Sublist.refl _
  | a :: l', h => by
    have ih := filter_sublist_filter_of_imp l' fun x hx => h x (List.mem_cons_of_mem _ hx)
    by_cases hp : p a = true
    · have hq := h a (List.mem_cons_self a l') hp
      rw [List.filter_cons, List.filter_cons, if_pos hp, if_pos hq]
      exact ih.cons₂ a
    · rw [List.filter_cons, List.filter_cons, if_neg hp]
      by_cases hq : q a = true
      · rw [if_pos hq]; exact ih.cons a
      · rw [if_neg hq]; exact ih

/-- Claim C1: for every content `c` and query `q`, the case-sensitive
search returns exactly the lines of `c` that contain `q` as a literal
contiguous substring, in the original order: every returned line contains
`q`, every line containing `q` is returned, and the result is a sublist of
the line sequence (hence in original order, with no other lines). -/
theorem search_exact_substring (q c : List Char) :
    (∀ l ∈ search q c, q <:+: l) ∧
    (∀ l ∈ strLines c, q <:+: l → l ∈ search q c) ∧
    (search q c).Sublist (strLines c) := by
  refine ⟨?_, ?_, List.filter_sublist _⟩
  · intro l hl
    exact strContains_iff.mp (List.mem_filter.mp hl).2
  · intro l hl hq
    exact List.mem_filter.mpr ⟨hl, strContains_iff.mpr hq⟩

/-- Witness for C1 at the `case_sensitive` unit-test input. -/
theorem search_exact_substring_witness :
    "safe, fast, productive.".toList ∈ search "duct".toList poemA :=
  (search_exact_substring "duct".toList poemA).2.1
    "safe, fast, productive.".toList (by decide) (by decide)

/-- Claim C2: the case-insensitive search returns exactly the lines of the
content whose lowercase form contains the lowercase form of the query as a
contiguous substring; the returned lines are the original untransformed
lines (they are lines of the content), in original order. -/
theorem search_ci_lowercase_spec (q c : List Char) :
    (∀ l ∈ search_case_insensitive q c,
      l ∈ strLines c ∧ toLowercase q <:+: toLowercase l) ∧
    (∀ l ∈ strLines c, toLowercase q <:+: toLowercase l →
      l ∈ search_case_insensitive q c) ∧
    (search_case_insensitive q c).Sublist (strLines c) := by
  have e : search_case_insensitive q c
      = (strLines c).filter
          (fun line => strContains (toLowercase line) (toLowercase q)) := rfl
  refine ⟨?_, ?_, ?_⟩
  · intro l hl
    rw [e] at hl
    have hm := List.mem_filter.mp hl
    exact ⟨hm.1, strContains_iff.mp hm.2⟩
  · intro l hl hinf
    rw [e]
    exact List.mem_filter.mpr ⟨hl, strContains_iff.mpr hinf⟩
  · rw [e]; exact List.filter_sublist _

/-- Witness for C2 at the `case_insensitive` unit-test input. -/
theorem search_ci_lowercase_spec_witness :
    "Rust:".toList ∈ search_case_insensitive "rUsT".toList poemB :=
  (search_ci_lowercase_spec "rUsT".toList poemB).2.1
    "Rust:".toList (by decide) (by decide)

/-- Claim C3 is false as stated: with query `"Σ"` and content `"AΣ"`, the
case-sensitive search matches the only line (position 0), while the
case-insensitive search matches nothing, because `str::to_lowercase` maps
the word-final `'Σ'` of the line to `'ς'` but the isolated `'Σ'` of the
query to `'σ'`.  So the case-insensitive match positions are not a
superset of the case-sensitive ones. -/
theorem search_ci_superset_counterexample :
    search ['Σ'] ['A', 'Σ'] = [['A', 'Σ']] ∧
    search_case_insensitive ['Σ'] ['A', 'Σ'] = [] := by decide

/-- Claim C3 (amended): if neither the query nor any line of the content
contains the capital sigma `'Σ'` — the one character whose lowercasing is
context-sensitive — then the case-insensitive search matches a superset of
the line positions matched by the case-sensitive search: the case-sensitive
result is a sublist of the case-insensitive one, and every line it returns
is also returned case-insensitively. -/
theorem search_ci_superset_of_sigma_free (q c : List Char)
    (hq : ('Σ') ∉ q) (hc : ∀ l ∈ strLines c, ('Σ') ∉ l) :
    (search q c).Sublist (search_case_insensitive q c) ∧
    ∀ l ∈ search q c, l ∈ search_case_insensitive q c := by
  have key : ∀ l ∈ strLines c, strContains l q = true →
      strContains (toLowercase l) (toLowercase q) = true := by
    intro l hl hcont
    have hinf : q <:+: l := strContains_iff.mp hcont
    have hlq : toLowercase q = q.flatMap charToLowercase :=
      toLowercaseAux_of_no_sigma q [] hq
    have hll : toLowercase l = l.flatMap charToLowercase :=
      toLowercaseAux_of_no_sigma l [] (hc l hl)
    rw [hll, hlq]
    exact strContains_iff.mpr (flatMap_preserves_substring charToLowercase hinf)
  have hsub : (search q c).Sublist (search_case_insensitive q c) :=
    filter_sublist_filter_of_imp (strLines c) key
  exact ⟨hsub, fun l hl => hsub.subset hl⟩

/-- Witness for the amended C3 on sigma-free input. -/
theorem search_ci_superset_of_sigma_free_witness :
    "Rust:".toList ∈ search_case_insensitive "ust".toList poemB :=
  (search_ci_superset_of_sigma_free "ust".toList poemB (by decide) (by decide)).2
    "Rust:".toList (by decide)

/-- Claim C4: configuration construction discards the first argument, then
fails with the missing-query error when no second element exists, fails
with the missing-file-path error when no third element exists, and
otherwise succeeds, capturing the second element as the query and the third
as the file path, ignoring any further elements; the ignore-case flag is
the presence bit of the environment variable. -/
theorem build_spec (p q f : List Char) (rest : List (List Char))
    (env : Option (List Char)) :
    Config.build [] env = .error "Didn't get a query string" ∧
    Config.build [p] env = .error "Didn't get a query string" ∧
    Config.build [p, q] env = .error "Didn't get a file path" ∧
    Config.build (p :: q :: f :: rest) env
      = .ok { query := q, file_path := f, ignore_case := env.isSome } :=
  ⟨rfl, rfl, rfl, rfl⟩

/-- Claim C5: the configuration's ignore-case flag is true exactly when the
environment variable is set (to any value, including the empty string), and
`run` dispatches to the case-insensitive search exactly when the flag is
true and to the case-sensitive search otherwise. -/
theorem ignore_case_env_and_dispatch :
    (∀ (args : List (List Char)) (env : Option (List Char)) (cfg : Config),
      Config.build args env = .ok cfg → cfg.ignore_case = env.isSome) ∧
    (∀ (ε : Type) (cfg : Config) (readToString : List Char → Except ε (List Char))
      (contents : List Char), readToString cfg.file_path = .ok contents →
      run cfg readToString
        = (.ok (),
            if cfg.ignore_case then search_case_insensitive cfg.query contents
            else search cfg.query contents)) := by
  constructor
  · intro args env cfg h
    rcases args with _ | ⟨a0, _ | ⟨a1, _ | ⟨a2, rest⟩⟩⟩
    · exact Except.noConfusion h
    · exact Except.noConfusion h
    · exact Except.noConfusion h
    · have e : Config.build (a0 :: a1 :: a2 :: rest) env
          = .ok { query := a1, file_path := a2, ignore_case := env.isSome } := rfl
      rw [e] at h
      cases h
      rfl
  · intro ε cfg readToString contents h
    simp only [run, h]

/-- Witness for C5: a built configuration with the variable set to the
empty string has the flag on, and `run` on a case-sensitive configuration
performs the case-sensitive search. -/
theorem ignore_case_env_and_dispatch_witness :
    ({ query := "q".toList, file_path := "f".toList, ignore_case := true }
        : Config).ignore_case = (some ("".toList : List Char)).isSome ∧
    run { query := "Pick".toList, file_path := "poem.txt".toList, ignore_case := false }
        (fun _ => (.ok poemA : Except String (List Char)))
      = (.ok (), search "Pick".toList poemA) :=
  ⟨ignore_case_env_and_dispatch.1 ["prog".toList, "q".toList, "f".toList]
      (some "".toList) _ rfl,
    ignore_case_env_and_dispatch.2 String _ _ poemA rfl⟩

/-- Claim C6: both search variants split the content with `strLines`, for
which a line-feed terminator and a carriage-return–line-feed terminator
both delimit lines and are stripped from the returned line, and a final
line without a trailing terminator still counts as a line. -/
theorem line_splitting_spec (a b q c : List Char)
    (h1 : ('\n') ∉ a) (h2 : a.getLast? ≠ some '\r') :
    strLines (a ++ '\n' :: b) = a :: strLines b ∧
    strLines (a ++ '\r' :: '\n' :: b) = a :: strLines b ∧
    (a ≠ [] → strLines a = [a]) ∧
    search q c = (strLines c).filter (fun line => strContains line q) ∧
    search_case_insensitive q c
      = (strLines c).filter
          (fun line => strContains (toLowercase line) (toLowercase q)) := by
  refine ⟨?_, ?_, ?_, rfl, rfl⟩
  · rw [strLines, linesAux_split b a [] h1]
    simp [stripTrailingCr, h2, strLines]
  · have hr : ('\n') ∉ a ++ ['\r'] := by
      intro hm
      rcases List.mem_append.mp hm with hm | hm
      · exact h1 hm
      · simp at hm
    have e : a ++ '\r' :: '\n' :: b = (a ++ ['\r']) ++ '\n' :: b := by
      simp [List.append_assoc]
    rw [e, strLines, linesAux_split b (a ++ ['\r']) [] hr]
    simp [stripTrailingCr, List.getLast?_concat, List.dropLast_concat, strLines]
  · intro hne
    rw [strLines, linesAux_last a [] h1 (by simpa using hne)]
    simp

/-- Witness for C6: the three splitting properties at concrete inputs. -/
theorem line_splitting_spec_witness :
    strLines ("ab".toList ++ '\n' :: "cd".toList) = "ab".toList :: strLines "cd".toList ∧
    strLines ("ab".toList ++ '\r' :: '\n' :: "cd".toList)
      = "ab".toList :: strLines "cd".toList ∧
    strLines "ab".toList = ["ab".toList] :=
  ⟨(line_splitting_spec "ab".toList "cd".toList [] [] (by decide) (by decide)).1,
    (line_splitting_spec "ab".toList "cd".toList [] [] (by decide) (by decide)).2.1,
    (line_splitting_spec "ab".toList "cd".toList [] [] (by decide) (by decide)).2.2.1
      (by decide)⟩

/-- Claim C7: if the file read fails, `run` returns that error unchanged
and prints nothing; and whenever `run` fails, no line has been printed, so
no partial results are ever emitted. -/
theorem run_error_propagation (ε : Type) (cfg : Config)
    (readToString : List Char → Except ε (List Char)) :
    (∀ e, readToString cfg.file_path = .error e →
      run cfg readToString = (.error e, [])) ∧
    (∀ e, (run cfg readToString).1 = .error e → (run cfg readToString).2 = []) := by
  constructor
  · intro e h
    simp only [run, h]
  · intro e h
    cases hr : readToString cfg.file_path with
    | error e' => simp only [run, hr]
    | ok contents =>
      simp only [run, hr] at h
      exact Except.noConfusion h


/-- Witness for C7: a failing read is propagated with empty output. -/
theorem run_error_propagation_witness :
    run { query := "q".toList, file_path := "f".toList, ignore_case := false }
        (fun _ => (.error "No such file" : Except String (List Char)))
      = (.error "No such file", []) :=
  (run_error_propagation String
      { query := "q".toList, file_path := "f".toList, ignore_case := false }
      (fun _ => .error "No such file")).1 "No such file" rfl

/-- Claim C8: for non-empty content, the empty query matches every line,
for both the case-sensitive and the case-insensitive variant. -/
theorem empty_query_matches_all (c : List Char) (_hc : c ≠ []) :
    search [] c = strLines c ∧ search_case_insensitive [] c = strLines c := by
  constructor
  · exact List.filter_eq_self.mpr fun l _ => strContains_iff.mpr List.nil_infix
  · show (strLines c).filter (fun line => strContains (toLowercase line) (toLowercase []))
        = strLines c
    exact List.filter_eq_self.mpr fun l _ => strContains_iff.mpr List.nil_infix

/-- Witness for C8 at a concrete two-line content. -/
theorem empty_query_matches_all_witness :
    search [] "a\nb".toList = strLines "a\nb".toList ∧
    search_case_insensitive [] "a\nb".toList = strLines "a\nb".toList :=
  empty_query_matches_all "a\nb".toList (by decide)

/-- Claim C9: both search variants are deterministic: two invocations of
the same variant on the same query and content yield identical ordered
results. -/
theorem search_deterministic (q c : List Char) (r₁ r₂ : List (List Char)) :
    (r₁ = search q c → r₂ = search q c → r₁ = r₂) ∧
    (r₁ = search_case_insensitive q c → r₂ = search_case_insensitive q c → r₁ = r₂) :=
  ⟨fun h₁ h₂ => h₁.trans h₂.symm, fun h₁ h₂ => h₁.trans h₂.symm⟩

/-- Witness for C9 at a concrete input. -/
theorem search_deterministic_witness :
    search "a".toList "a\nb".toList = search "a".toList "a\nb".toList :=
  (search_deterministic "a".toList "a\nb".toList
      (search "a".toList "a\nb".toList) (search "a".toList "a\nb".toList)).1 rfl rfl

/-- Claim C10: the case-sensitive search is anti-monotone in the query: if
`q₁` is a contiguous substring of `q₂`, every line returned for `q₂` is
also returned for `q₁`. -/
theorem search_anti_monotone (q₁ q₂ c : List Char) (h : q₁ <:+: q₂) :
    ∀ l ∈ search q₂ c, l ∈ search q₁ c := by
  intro l hl
  have hm := List.mem_filter.mp hl
  exact List.mem_filter.mpr
    ⟨hm.1, strContains_iff.mpr (h.trans (strContains_iff.mp hm.2))⟩

/-- Witness for C10: `"uc"` is a substring of `"duct"`, and the line
matched by `"duct"` is matched by `"uc"`. -/
theorem search_anti_monotone_witness :
    "safe, fast, productive.".toList ∈ search "uc".toList poemA :=
  search_anti_monotone "uc".toList "duct".toList poemA (by decide)
    "safe, fast, productive.".toList (by decide)

end Minigrep
